import Mathlib

/-!
Verification of the spreadsheet ingestion / incentive engine of the
excel_report repository.

Modelling conventions (shallow embedding):

* JavaScript strings are modelled as lists of Unicode codepoints
  (`Str := List Nat`).  String literals from the source appear as
  explicit codepoint lists (`lit...` definitions) so that every
  comparison is plain `Nat` arithmetic.
* The JavaScript whitespace class (regex backslash-s) is modelled by
  `isWs`, covering the ASCII whitespace codes and the Unicode space
  characters enumerated by the ECMAScript standard.
* `String.prototype.toLowerCase` is modelled on the ASCII range
  (`toLowerN`), which is the range exercised by the engine's tokens.
* Spreadsheet cells reaching the ingestion loop are modelled
  post-extraction as `Option Str` (`none` = null cell); date cells are
  modelled separately by `DateCell` for `parseDateCell`.
* ISO calendar dates ("YYYY-MM-DD" strings in the source) are modelled
  by their UTC day numbers (`Nat`); the source's UTC `Date` arithmetic
  (`addDaysToIso`, `toTimestamp`) is exactly day-number arithmetic
  times 86400000 milliseconds.
* JavaScript `Map`s (insertion ordered, key updated in place) are
  modelled as association lists with `alookup` / `aupsert`;
  JavaScript `Set`s (insertion ordered, deduplicating) are modelled as
  lists with `insertUniq`.
-/

/-- A JavaScript string, as its list of Unicode codepoints. -/
abbrev Str := List Nat

/-- The ECMAScript whitespace class (regex backslash-s and
`String.prototype.trim`): tab, line feed, vertical tab, form feed,
carriage return, space, no-break space, and the Unicode space
separators, line/paragraph separators and BOM. -/
def isWs (n : Nat) : Bool :=
  n == 9 || n == 10 || n == 11 || n == 12 || n == 13 || n == 32 ||
  n == 160 || n == 5760 || (8192 ≤ n && n ≤ 8202) || n == 8232 ||
  n == 8233 || n == 8239 || n == 8287 || n == 12288 || n == 65279

/-- ASCII model of `String.prototype.toLowerCase`: map the codes of
the letters A-Z to a-z, leave everything else unchanged. -/
def toLowerN (n : Nat) : Nat :=
  if 65 ≤ n ∧ n ≤ 90 then n + 32 else n

/-- The body of `normalizeQuotes` (source: part_004 line 57 and
app/page.tsx line 51): the curly single quotes U+2019 and U+2018 are
replaced by the straight apostrophe U+0027. -/
def quoteFix (n : Nat) : Nat :=
  if n = 8217 ∨ n = 8216 then 39 else n

/-- Lower-case an entire string (model of `toLowerCase`). -/
def lowerStr (s : Str) : Str := s.map toLowerN

/-- Left trim: drop the leading whitespace run (half of
`String.prototype.trim`). -/
def trimL (s : Str) : Str := s.dropWhile (fun c => isWs c)

/-- Right trim: drop the trailing whitespace run (the other half of
`String.prototype.trim`). -/
def trimR (s : Str) : Str := ((s.reverse).dropWhile (fun c => isWs c)).reverse

/-- Model of `String.prototype.trim`: remove leading and trailing
whitespace. -/
def trimWs (s : Str) : Str := trimR (trimL s)

/-- Model of `.replace(/\s+/g, ' ')` from `normalizeKey` (source:
part_004 line 73, app/page.tsx line 67): every maximal whitespace run
collapses to a single space. -/
def collapseWs : List Nat → List Nat
  | [] => []
  | [c] => if isWs c then [32] else [c]
  | c :: d :: rest =>
    if isWs c then
      if isWs d then collapseWs (d :: rest)
      else 32 :: collapseWs (d :: rest)
    else c :: collapseWs (d :: rest)

/-- Model of `stringifyCell` restricted to string-or-null cells
(app/page.tsx lines 53-63): null becomes the empty string, a string
cell is trimmed.  Cells of other runtime types reach the ingestion
loop only through their stringified text, which this model takes as
given. -/
def stringifyCell (c : Option Str) : Str :=
  match c with
  | none => []
  | some s => trimWs s

/-- Model of `normalizeKey` on an already-stringified value
(app/page.tsx lines 65-68): stringify (trim), normalize quotes,
collapse whitespace runs, trim, lower-case. -/
def normalizeKey (s : Str) : Str :=
  lowerStr (trimWs (collapseWs ((trimWs s).map quoteFix)))

/-- Model of `normalizeKey` applied to a raw cell. -/
def normalizeKeyCell (c : Option Str) : Str :=
  lowerStr (trimWs (collapseWs ((stringifyCell c).map quoteFix)))

/-- Insertion into a JavaScript `Set` modelled as a list: appended at
the end when new, otherwise unchanged. -/
def insertUniq (x : α) (l : List α) [DecidableEq α] : List α :=
  if x ∈ l then l else l ++ [x]

/-- Decides whether `pat` is a prefix of `l` (helper for the model of
`String.prototype.includes`). -/
def startsWithB : Str → Str → Bool
  | _, [] => true
  | [], _ :: _ => false
  | a :: as, b :: bs => a == b && startsWithB as bs

/-- Model of `String.prototype.includes`: `pat` occurs contiguously
inside `l`. -/
def containsSub : Str → Str → Bool
  | l, pat =>
    match l with
    | [] => pat.isEmpty
    | _ :: rest => startsWithB l pat || containsSub rest pat

/-- Model of `calculateIncentiveForDepartments` (app/page.tsx lines
132-138, part_004 lines 138-144): the tiered incentive for a distinct
department count. -/
def calculateIncentiveForDepartments (departmentCount : Nat) : Nat :=
  if 5 ≤ departmentCount then 80
  else if departmentCount = 4 then 60
  else if departmentCount = 3 then 40
  else if departmentCount = 2 then 20
  else 0
/-- Codepoints of the text: sale -/
def litSale : Str := [115, 97, 108, 101]

/-- Codepoints of the text: sales -/
def litSales : Str := [115, 97, 108, 101, 115]

/-- Codepoints of the text: Unknown Salesman -/
def litUnknownSalesman : Str := [85, 110, 107, 110, 111, 119, 110, 32, 83, 97, 108, 101, 115, 109, 97, 110]

/-- Codepoints of the text: shutting shirting -/
def litShuttingShirting : Str := [115, 104, 117, 116, 116, 105, 110, 103, 32, 115, 104, 105, 114, 116, 105, 110, 103]

/-- Codepoints of the text: men<U+0027>s ethnic -/
def litMensEthnic : Str := [109, 101, 110, 39, 115, 32, 101, 116, 104, 110, 105, 99]

/-- Codepoints of the text: kurta -/
def litKurta : Str := [107, 117, 114, 116, 97]

/-- Codepoints of the text: men<U+0027>s readymade -/
def litMensReadymade : Str := [109, 101, 110, 39, 115, 32, 114, 101, 97, 100, 121, 109, 97, 100, 101]

/-- Codepoints of the text: sarees -/
def litSarees : Str := [115, 97, 114, 101, 101, 115]

/-- Codepoints of the text: women<U+0027>s ethnic -/
def litWomensEthnic : Str := [119, 111, 109, 101, 110, 39, 115, 32, 101, 116, 104, 110, 105, 99]

/-- Codepoints of the text: mens accessories -/
def litVarMensAccessories : Str := [109, 101, 110, 115, 32, 97, 99, 99, 101, 115, 115, 111, 114, 105, 101, 115]

/-- Codepoints of the text: men<U+0027>s accessories -/
def litVarMensAposAccessories : Str := [109, 101, 110, 39, 115, 32, 97, 99, 99, 101, 115, 115, 111, 114, 105, 101, 115]

/-- Codepoints of the text: mens ethnic -/
def litVarMensEthnic : Str := [109, 101, 110, 115, 32, 101, 116, 104, 110, 105, 99]

/-- Codepoints of the text: mens ethnics -/
def litVarMensEthnics : Str := [109, 101, 110, 115, 32, 101, 116, 104, 110, 105, 99, 115]

/-- Codepoints of the text: men ethnic -/
def litVarMenEthnic : Str := [109, 101, 110, 32, 101, 116, 104, 110, 105, 99]

/-- Codepoints of the text: men ethnics -/
def litVarMenEthnics : Str := [109, 101, 110, 32, 101, 116, 104, 110, 105, 99, 115]

/-- Codepoints of the text: mens readymade -/
def litVarMensReadymade : Str := [109, 101, 110, 115, 32, 114, 101, 97, 100, 121, 109, 97, 100, 101]

/-- Codepoints of the text: men readymade -/
def litVarMenReadymade : Str := [109, 101, 110, 32, 114, 101, 97, 100, 121, 109, 97, 100, 101]

/-- Codepoints of the text: shirting -/
def litVarShirting : Str := [115, 104, 105, 114, 116, 105, 110, 103]

/-- Codepoints of the text: shirting shutting -/
def litVarShirtingShutting : Str := [115, 104, 105, 114, 116, 105, 110, 103, 32, 115, 104, 117, 116, 116, 105, 110, 103]

/-- Codepoints of the text: shutting -/
def litVarShutting : Str := [115, 104, 117, 116, 116, 105, 110, 103]

/-- Codepoints of the text: womens ethnic -/
def litVarWomensEthnic : Str := [119, 111, 109, 101, 110, 115, 32, 101, 116, 104, 110, 105, 99]

/-- Codepoints of the text: womens ethnis -/
def litVarWomensEthnis : Str := [119, 111, 109, 101, 110, 115, 32, 101, 116, 104, 110, 105, 115]

/-- Codepoints of the text: women ethnic -/
def litVarWomenEthnic : Str := [119, 111, 109, 101, 110, 32, 101, 116, 104, 110, 105, 99]

/-- Codepoints of the text: women ethnis -/
def litVarWomenEthnis : Str := [119, 111, 109, 101, 110, 32, 101, 116, 104, 110, 105, 115]

/-- Codepoints of the text: saree -/
def litVarSaree : Str := [115, 97, 114, 101, 101]

/-- Codepoints of the text: sari -/
def litVarSari : Str := [115, 97, 114, 105]

/-- Codepoints of the text: saris -/
def litVarSaris : Str := [115, 97, 114, 105, 115]

/-- Codepoints of the text: voucher no -/
def litAliasVoucherNo : Str := [118, 111, 117, 99, 104, 101, 114, 32, 110, 111]

/-- Codepoints of the text: voucher date -/
def litAliasVoucherDate : Str := [118, 111, 117, 99, 104, 101, 114, 32, 100, 97, 116, 101]

/-- Codepoints of the text: date -/
def litAliasDate : Str := [100, 97, 116, 101]

/-- Codepoints of the text: salesman name -/
def litAliasSalesmanName : Str := [115, 97, 108, 101, 115, 109, 97, 110, 32, 110, 97, 109, 101]

/-- Codepoints of the text: sales person -/
def litAliasSalesPerson : Str := [115, 97, 108, 101, 115, 32, 112, 101, 114, 115, 111, 110]

/-- Codepoints of the text: department name -/
def litAliasDepartmentName : Str := [100, 101, 112, 97, 114, 116, 109, 101, 110, 116, 32, 110, 97, 109, 101]

/-- Codepoints of the text: department -/
def litAliasDepartment : Str := [100, 101, 112, 97, 114, 116, 109, 101, 110, 116]

/-- Codepoints of the text: dept name -/
def litAliasDeptName : Str := [100, 101, 112, 116, 32, 110, 97, 109, 101]

/-- Codepoints of the text: main category -/
def litAliasMainCategory : Str := [109, 97, 105, 110, 32, 99, 97, 116, 101, 103, 111, 114, 121]

/-- Codepoints of the text: itemgroup name -/
def litAliasItemgroupName : Str := [105, 116, 101, 109, 103, 114, 111, 117, 112, 32, 110, 97, 109, 101]

/-- Codepoints of the text: item group name -/
def litAliasItemGroupName : Str := [105, 116, 101, 109, 32, 103, 114, 111, 117, 112, 32, 110, 97, 109, 101]

/-- Codepoints of the text: item group -/
def litAliasItemGroup : Str := [105, 116, 101, 109, 32, 103, 114, 111, 117, 112]

/-- Codepoints of the text: sub category -/
def litAliasSubCategory : Str := [115, 117, 98, 32, 99, 97, 116, 101, 103, 111, 114, 121]

/-- Codepoints of the text: subcategory -/
def litAliasSubcategory : Str := [115, 117, 98, 99, 97, 116, 101, 103, 111, 114, 121]

/-- Codepoints of the text: counter name -/
def litAliasCounterName : Str := [99, 111, 117, 110, 116, 101, 114, 32, 110, 97, 109, 101]

/-- Codepoints of the text: counter -/
def litAliasCounter : Str := [99, 111, 117, 110, 116, 101, 114]

/-- Codepoints of the text: mobile1 -/
def litAliasMobile1 : Str := [109, 111, 98, 105, 108, 101, 49]

/-- Codepoints of the text: customer id -/
def litAliasCustomerId : Str := [99, 117, 115, 116, 111, 109, 101, 114, 32, 105, 100]

/-- Codepoints of the text: customer mobile -/
def litAliasCustomerMobile : Str := [99, 117, 115, 116, 111, 109, 101, 114, 32, 109, 111, 98, 105, 108, 101]

/-- Codepoints of the text: account name -/
def litAliasAccountName : Str := [97, 99, 99, 111, 117, 110, 116, 32, 110, 97, 109, 101]

/-- Codepoints of the text: customer name -/
def litAliasCustomerName : Str := [99, 117, 115, 116, 111, 109, 101, 114, 32, 110, 97, 109, 101]

/-- Codepoints of the text: account -/
def litAliasAccount : Str := [97, 99, 99, 111, 117, 110, 116]

/-- Codepoints of the text: sales type -/
def litAliasSalesType : Str := [115, 97, 108, 101, 115, 32, 116, 121, 112, 101]

/-- Codepoints of the text: type -/
def litAliasType : Str := [116, 121, 112, 101]

/-- Codepoints of the text: transaction type -/
def litAliasTransactionType : Str := [116, 114, 97, 110, 115, 97, 99, 116, 105, 111, 110, 32, 116, 121, 112, 101]

/-- Codepoints of the text: sale type -/
def litAliasSaleType : Str := [115, 97, 108, 101, 32, 116, 121, 112, 101]

/-- Codepoints of the text: Salesman Name -/
def litErrSalesmanName : Str := [83, 97, 108, 101, 115, 109, 97, 110, 32, 78, 97, 109, 101]

/-- Codepoints of the text: Item Group Name -/
def litErrItemGroupName : Str := [73, 116, 101, 109, 32, 71, 114, 111, 117, 112, 32, 78, 97, 109, 101]

/-- Codepoints of the text: Mobile1 -/
def litErrMobile1 : Str := [77, 111, 98, 105, 108, 101, 49]

/-- Codepoints of the text: John Doe -/
def litJohnDoe : Str := [74, 111, 104, 110, 32, 68, 111, 101]

/-- Codepoints of the text: two spaces, john, three spaces, doe, trailing space -/
def litJohnDoeSpaced : Str := [32, 32, 106, 111, 104, 110, 32, 32, 32, 100, 111, 101, 32]

/-- Codepoints of the text: JOHN DOE -/
def litJohnDoeUpper : Str := [74, 79, 72, 78, 32, 68, 79, 69]

/-- Codepoints of the text: john doe -/
def litJohnDoeNorm : Str := [106, 111, 104, 110, 32, 100, 111, 101]

/-- Codepoints of the text: X -/
def litX : Str := [88]

/-- Codepoints of the text: 9 -/
def litNine : Str := [57]

/-- Codepoints of the text: C1 -/
def litC1 : Str := [67, 49]

/-- Codepoints of the text: C2 -/
def litC2 : Str := [67, 50]

/-- Codepoints of the text: Sale -/
def litSaleCap : Str := [83, 97, 108, 101]

/-- Codepoints of the text: Return -/
def litReturn : Str := [82, 101, 116, 117, 114, 110]

/-- Codepoints of the text: A -/
def litA : Str := [65]

/-- C2: the incentive tier function returns 0 for counts 0 and 1, 20
for 2, 40 for 3, 60 for 4, and 80 for every count of at least 5; on
0,1,2,3,4,5,6 it returns exactly 0,0,20,40,60,80,80, and it is
monotonically non-decreasing. -/
theorem calculateIncentive_tiers_and_monotone :
    (calculateIncentiveForDepartments 0 = 0 ∧
     calculateIncentiveForDepartments 1 = 0 ∧
     calculateIncentiveForDepartments 2 = 20 ∧
     calculateIncentiveForDepartments 3 = 40 ∧
     calculateIncentiveForDepartments 4 = 60 ∧
     calculateIncentiveForDepartments 5 = 80 ∧
     calculateIncentiveForDepartments 6 = 80) ∧
    (∀ n, n = 0 ∨ n = 1 → calculateIncentiveForDepartments n = 0) ∧
    (∀ n, 5 ≤ n → calculateIncentiveForDepartments n = 80) ∧
    (∀ n m, n ≤ m →
      calculateIncentiveForDepartments n ≤ calculateIncentiveForDepartments m) := by
  refine ⟨by decide, ?_, ?_, ?_⟩
  · rintro n h
    rcases h with rfl | rfl
    · decide
    · decide
  · intro n h
    unfold calculateIncentiveForDepartments
    split_ifs
    all_goals omega
  · intro n m h
    unfold calculateIncentiveForDepartments
    split_ifs
    all_goals omega

/-- Witness for C2 at a concrete input: the monotonicity part applied
at 2 and 5. -/
theorem calculateIncentive_tiers_and_monotone_witness :
    calculateIncentiveForDepartments 2 ≤ calculateIncentiveForDepartments 5 :=
  calculateIncentive_tiers_and_monotone.2.2.2 2 5 (by decide)
/-- Character facts: lower-casing is idempotent. -/
theorem toLowerN_idem (n : Nat) : toLowerN (toLowerN n) = toLowerN n := by
  unfold toLowerN
  split_ifs <;> omega

/-- Lower-casing preserves the whitespace class. -/
theorem isWs_toLowerN (n : Nat) : isWs (toLowerN n) = isWs n := by
  unfold toLowerN
  split_ifs with h
  · have h1 : isWs (n + 32) = false := by
      rw [Bool.eq_false_iff]
      intro hw
      simp only [isWs, Bool.or_eq_true, beq_iff_eq, Bool.and_eq_true,
        decide_eq_true_eq] at hw
      omega
    have h2 : isWs n = false := by
      rw [Bool.eq_false_iff]
      intro hw
      simp only [isWs, Bool.or_eq_true, beq_iff_eq, Bool.and_eq_true,
        decide_eq_true_eq] at hw
      omega
    rw [h1, h2]
  · rfl

/-- Only the space character lower-cases to the space character. -/
theorem toLowerN_eq_32 {n : Nat} (h : toLowerN n = 32) : n = 32 := by
  unfold toLowerN at h
  split_ifs at h <;> omega

/-- Quote normalization preserves the whitespace class. -/
theorem isWs_quoteFix (n : Nat) : isWs (quoteFix n) = isWs n := by
  unfold quoteFix
  split_ifs with h
  · rcases h with rfl | rfl <;> rfl
  · rfl

/-- Quote normalization never outputs a curly quote. -/
theorem quoteFix_ne_curly (n : Nat) : quoteFix n ≠ 8217 ∧ quoteFix n ≠ 8216 := by
  unfold quoteFix
  split_ifs <;> omega

/-- Lower-casing never creates a curly quote. -/
theorem toLowerN_ne_curly {n : Nat} (h1 : n ≠ 8217) (h2 : n ≠ 8216) :
    toLowerN n ≠ 8217 ∧ toLowerN n ≠ 8216 := by
  unfold toLowerN
  split_ifs <;> omega

/-- Quote normalization fixes everything that is not a curly quote. -/
theorem quoteFix_id {n : Nat} (h1 : n ≠ 8217) (h2 : n ≠ 8216) : quoteFix n = n := by
  unfold quoteFix
  split_ifs <;> omega

/-- A string whose first character, if any, is not whitespace. -/
def NoWsHead (l : List Nat) : Prop := ∀ c, l.head? = some c → isWs c = false

/-- A string whose last character, if any, is not whitespace. -/
def NoWsLast (l : List Nat) : Prop := NoWsHead l.reverse

/-- The normal form produced by whitespace collapsing: the only
whitespace character occurring is the plain space, and no two spaces
are adjacent. -/
def Collapsed (l : List Nat) : Prop :=
  (∀ c ∈ l, isWs c = true → c = 32) ∧ l.Chain' (fun a b => ¬(a = 32 ∧ b = 32))

theorem noWsHead_nil : NoWsHead [] := by
  intro c h
  simp at h

theorem noWsHead_cons {c : Nat} {l : List Nat} (h : isWs c = false) :
    NoWsHead (c :: l) := by
  intro d hd
  simp only [List.head?_cons, Option.some.injEq] at hd
  exact hd ▸ h

theorem noWsHead_dropWhile (l : List Nat) :
    NoWsHead (l.dropWhile (fun c => isWs c)) := by
  induction l with
  | nil => exact noWsHead_nil
  | cons c rest ih =>
    by_cases h : isWs c
    · simpa [List.dropWhile_cons, h] using ih
    · simp only [Bool.not_eq_true] at h
      simpa [List.dropWhile_cons, h] using noWsHead_cons h

theorem dropWhile_eq_self_of_noWsHead {l : List Nat} (h : NoWsHead l) :
    l.dropWhile (fun c => isWs c) = l := by
  cases l with
  | nil => rfl
  | cons c rest =>
    have hc := h c (by simp)
    simp [List.dropWhile_cons, hc]

theorem trimL_eq_self {l : List Nat} (h : NoWsHead l) : trimL l = l :=
  dropWhile_eq_self_of_noWsHead h

theorem trimR_eq_self {l : List Nat} (h : NoWsLast l) : trimR l = l := by
  unfold trimR
  rw [dropWhile_eq_self_of_noWsHead h, List.reverse_reverse]

theorem noWsHead_trimL (l : List Nat) : NoWsHead (trimL l) :=
  noWsHead_dropWhile l

theorem noWsLast_trimR (l : List Nat) : NoWsLast (trimR l) := by
  unfold NoWsLast trimR
  rw [List.reverse_reverse]
  exact noWsHead_dropWhile _

/-- Dropping a whitespace run commutes with appending a final
non-whitespace character. -/
theorem dropWhile_append_singleton {c : Nat} (hc : isWs c = false) (l : List Nat) :
    (l ++ [c]).dropWhile (fun x => isWs x) =
      l.dropWhile (fun x => isWs x) ++ [c] := by
  induction l with
  | nil => simp [List.dropWhile_cons, hc]
  | cons x xs ih =>
    by_cases hx : isWs x
    · simpa [List.dropWhile_cons, hx] using ih
    · simp [List.dropWhile_cons, hx]

theorem noWsHead_trimR {l : List Nat} (h : NoWsHead l) : NoWsHead (trimR l) := by
  cases l with
  | nil => exact noWsHead_nil
  | cons c rest =>
    have hc := h c (by simp)
    unfold trimR
    rw [List.reverse_cons, dropWhile_append_singleton hc, List.reverse_append]
    exact noWsHead_cons hc

theorem trimWs_eq_self {l : List Nat} (h1 : NoWsHead l) (h2 : NoWsLast l) :
    trimWs l = l := by
  unfold trimWs
  rw [trimL_eq_self h1, trimR_eq_self h2]

theorem noWsHead_trimWs (l : List Nat) : NoWsHead (trimWs l) :=
  noWsHead_trimR (noWsHead_trimL l)

theorem noWsLast_trimWs (l : List Nat) : NoWsLast (trimWs l) :=
  noWsLast_trimR _

theorem mem_trimL {c : Nat} {l : List Nat} (h : c ∈ trimL l) : c ∈ l :=
  (List.dropWhile_sublist _).subset h

theorem mem_trimR {c : Nat} {l : List Nat} (h : c ∈ trimR l) : c ∈ l := by
  unfold trimR at h
  rw [List.mem_reverse] at h
  have := (List.dropWhile_sublist (l := l.reverse) (p := fun x => isWs x)).subset h
  simpa using this

theorem mem_trimWs {c : Nat} {l : List Nat} (h : c ∈ trimWs l) : c ∈ l :=
  mem_trimL (mem_trimR h)

theorem mem_trimL_of_not_ws {c : Nat} (hc : isWs c = false) {l : List Nat}
    (h : c ∈ l) : c ∈ trimL l := by
  induction l with
  | nil => simp at h
  | cons x xs ih =>
    by_cases hx : isWs x
    · have hne : c ≠ x := by
        intro e
        rw [e] at hc
        rw [hc] at hx
        exact absurd hx (by simp)
      rcases List.mem_cons.mp h with e | hmem
      · exact absurd e hne
      · simpa [trimL, List.dropWhile_cons, hx] using ih hmem
    · simpa [trimL, List.dropWhile_cons, hx] using h

theorem mem_trimR_of_not_ws {c : Nat} (hc : isWs c = false) {l : List Nat}
    (h : c ∈ l) : c ∈ trimR l := by
  unfold trimR
  rw [List.mem_reverse]
  exact mem_trimL_of_not_ws hc (by simpa using h)

theorem mem_trimWs_of_not_ws {c : Nat} (hc : isWs c = false) {l : List Nat}
    (h : c ∈ l) : c ∈ trimWs l :=
  mem_trimR_of_not_ws hc (mem_trimL_of_not_ws hc h)
theorem head?_collapse (x : Nat) (xs : List Nat) :
    (collapseWs (x :: xs)).head? = some (if isWs x then 32 else x) := by
  induction xs generalizing x with
  | nil =>
    by_cases hx : isWs x <;> simp [collapseWs, hx]
  | cons y rest ih =>
    by_cases hx : isWs x
    · by_cases hy : isWs y
      · rw [show collapseWs (x :: y :: rest) = collapseWs (y :: rest) by
          simp [collapseWs, hx, hy]]
        rw [ih y]
        simp [hx, hy]
      · simp [collapseWs, hx, hy]
    · simp [collapseWs, hx]

theorem collapse_eq_self {l : List Nat} (h : Collapsed l) : collapseWs l = l := by
  induction l with
  | nil => rfl
  | cons c tail ih =>
    obtain ⟨hmem, hch⟩ := h
    cases tail with
    | nil =>
      by_cases hc : isWs c
      · have := hmem c (by simp) hc
        simp [collapseWs, hc, this]
      · simp [collapseWs, hc]
    | cons d rest =>
      have htail : Collapsed (d :: rest) :=
        ⟨fun x hx hw => hmem x (List.mem_cons_of_mem _ hx) hw,
         (List.chain'_cons'.mp hch).2⟩
      by_cases hc : isWs c
      · have hc32 : c = 32 := hmem c (by simp) hc
        have hd : isWs d = false := by
          rw [Bool.eq_false_iff]
          intro hdw
          have hd32 : d = 32 := hmem d (by simp) hdw
          have := (List.chain'_cons'.mp hch).1 d (by simp)
          exact this ⟨hc32, hd32⟩
        rw [show collapseWs (c :: d :: rest) = 32 :: collapseWs (d :: rest) by
          simp [collapseWs, hc, hd]]
        rw [ih htail, hc32]
      · rw [show collapseWs (c :: d :: rest) = c :: collapseWs (d :: rest) by
          simp [collapseWs, hc]]
        rw [ih htail]

theorem collapsed_collapse (l : List Nat) : Collapsed (collapseWs l) := by
  induction l with
  | nil =>
    refine ⟨?_, ?_⟩
    · intro c hc
      simp [collapseWs] at hc
    · simp [collapseWs]
  | cons c tail ih =>
    cases tail with
    | nil =>
      by_cases hc : isWs c
      · refine ⟨?_, ?_⟩
        · intro x hx hw
          simp [collapseWs, hc] at hx
          omega
        · simp [collapseWs, hc]
      · refine ⟨?_, ?_⟩
        · intro x hx hw
          simp [collapseWs, hc] at hx
          subst hx
          rw [hw] at hc
          exact absurd rfl hc
        · simp [collapseWs, hc]
    | cons d rest =>
      obtain ⟨ihmem, ihch⟩ := ih
      by_cases hc : isWs c
      · by_cases hd : isWs d
        · rw [show collapseWs (c :: d :: rest) = collapseWs (d :: rest) by
            simp [collapseWs, hc, hd]]
          exact ⟨ihmem, ihch⟩
        · rw [show collapseWs (c :: d :: rest) = 32 :: collapseWs (d :: rest) by
            simp [collapseWs, hc, hd]]
          refine ⟨?_, ?_⟩
          · intro x hx hw
            rcases List.mem_cons.mp hx with e | hmem
            · exact e
            · exact ihmem x hmem hw
          · rw [List.chain'_cons']
            refine ⟨?_, ihch⟩
            intro b hb
            rw [head?_collapse d rest, Option.mem_def, Option.some.injEq,
              if_neg hd] at hb
            intro hpair
            have hd32 : d = 32 := hb.trans hpair.2
            rw [hd32] at hd
            simp [isWs] at hd
      · rw [show collapseWs (c :: d :: rest) = c :: collapseWs (d :: rest) by
          simp [collapseWs, hc]]
        refine ⟨?_, ?_⟩
        · intro x hx hw
          rcases List.mem_cons.mp hx with e | hmem
          · subst e
            rw [hw] at hc
            exact absurd rfl hc
          · exact ihmem x hmem hw
        · rw [List.chain'_cons']
          refine ⟨?_, ihch⟩
          intro b hb
          intro ⟨hc32, _⟩
          rw [hc32] at hc
          simp [isWs] at hc

theorem mem_collapse {c : Nat} {l : List Nat} (h : c ∈ collapseWs l) :
    c = 32 ∨ c ∈ l := by
  induction l with
  | nil => simp [collapseWs] at h
  | cons x tail ih =>
    cases tail with
    | nil =>
      by_cases hx : isWs x
      · simp [collapseWs, hx] at h
        exact Or.inl h
      · simp [collapseWs, hx] at h
        exact Or.inr (by simp [h])
    | cons d rest =>
      by_cases hx : isWs x
      · by_cases hd : isWs d
        · rw [show collapseWs (x :: d :: rest) = collapseWs (d :: rest) by
            simp [collapseWs, hx, hd]] at h
          rcases ih h with e | hmem
          · exact Or.inl e
          · exact Or.inr (List.mem_cons_of_mem _ hmem)
        · rw [show collapseWs (x :: d :: rest) = 32 :: collapseWs (d :: rest) by
            simp [collapseWs, hx, hd]] at h
          rcases List.mem_cons.mp h with e | hmem
          · exact Or.inl e
          · rcases ih hmem with e | hm
            · exact Or.inl e
            · exact Or.inr (List.mem_cons_of_mem _ hm)
      · rw [show collapseWs (x :: d :: rest) = x :: collapseWs (d :: rest) by
          simp [collapseWs, hx]] at h
        rcases List.mem_cons.mp h with e | hmem
        · exact Or.inr (by simp [e])
        · rcases ih hmem with e | hm
          · exact Or.inl e
          · exact Or.inr (List.mem_cons_of_mem _ hm)

theorem mem_collapse_of_not_ws {c : Nat} (hc : isWs c = false) {l : List Nat}
    (h : c ∈ l) : c ∈ collapseWs l := by
  induction l with
  | nil => simp at h
  | cons x tail ih =>
    have hne_ws : ∀ y, isWs y = true → c ≠ y := by
      intro y hy e
      rw [e, hy] at hc
      exact absurd hc (by simp)
    cases tail with
    | nil =>
      rcases List.mem_cons.mp h with e | hmem
      · subst e
        by_cases hx : isWs c
        · rw [hx] at hc
          exact absurd hc (by simp)
        · simp [collapseWs, hx]
      · simp at hmem
    | cons d rest =>
      by_cases hx : isWs x
      · have hcx : c ≠ x := hne_ws x hx
        have hmem : c ∈ d :: rest := by
          rcases List.mem_cons.mp h with e | hm
          · exact absurd e hcx
          · exact hm
        by_cases hd : isWs d
        · rw [show collapseWs (x :: d :: rest) = collapseWs (d :: rest) by
            simp [collapseWs, hx, hd]]
          exact ih hmem
        · rw [show collapseWs (x :: d :: rest) = 32 :: collapseWs (d :: rest) by
            simp [collapseWs, hx, hd]]
          exact List.mem_cons_of_mem _ (ih hmem)
      · rw [show collapseWs (x :: d :: rest) = x :: collapseWs (d :: rest) by
          simp [collapseWs, hx]]
        rcases List.mem_cons.mp h with e | hmem
        · exact e ▸ List.mem_cons_self _ _
        · exact List.mem_cons_of_mem _ (ih hmem)
theorem collapsed_dropWhile {l : List Nat} (h : Collapsed l) :
    Collapsed (l.dropWhile (fun c => isWs c)) := by
  induction l with
  | nil => exact h
  | cons c rest ih =>
    obtain ⟨hmem, hch⟩ := h
    have htail : Collapsed rest :=
      ⟨fun x hx hw => hmem x (List.mem_cons_of_mem _ hx) hw,
       (List.chain'_cons'.mp hch).2⟩
    by_cases hc : isWs c
    · simpa [List.dropWhile_cons, hc] using ih htail
    · simpa [List.dropWhile_cons, hc] using ⟨hmem, hch⟩

theorem collapsed_reverse {l : List Nat} (h : Collapsed l) :
    Collapsed l.reverse := by
  obtain ⟨hmem, hch⟩ := h
  refine ⟨?_, ?_⟩
  · intro x hx hw
    exact hmem x (List.mem_reverse.mp hx) hw
  · rw [List.chain'_reverse]
    exact hch.imp (fun a b hab ⟨h1, h2⟩ => hab ⟨h2, h1⟩)

theorem collapsed_trimL {l : List Nat} (h : Collapsed l) : Collapsed (trimL l) :=
  collapsed_dropWhile h

theorem collapsed_trimR {l : List Nat} (h : Collapsed l) : Collapsed (trimR l) :=
  collapsed_reverse (collapsed_dropWhile (collapsed_reverse h))

theorem collapsed_trimWs {l : List Nat} (h : Collapsed l) : Collapsed (trimWs l) :=
  collapsed_trimR (collapsed_trimL h)

theorem collapsed_lowerStr {l : List Nat} (h : Collapsed l) :
    Collapsed (lowerStr l) := by
  obtain ⟨hmem, hch⟩ := h
  refine ⟨?_, ?_⟩
  · intro x hx hw
    rcases List.mem_map.mp hx with ⟨c, hc, rfl⟩
    rw [isWs_toLowerN] at hw
    rw [hmem c hc hw]
    rfl
  · unfold lowerStr
    rw [List.chain'_map]
    refine hch.imp ?_
    intro a b hab ⟨h1, h2⟩
    exact hab ⟨toLowerN_eq_32 h1, toLowerN_eq_32 h2⟩

theorem noWsHead_lowerStr {l : List Nat} (h : NoWsHead l) :
    NoWsHead (lowerStr l) := by
  intro c hc
  unfold lowerStr at hc
  rw [List.head?_map] at hc
  cases hl : l.head? with
  | none => rw [hl] at hc; simp at hc
  | some d =>
    rw [hl] at hc
    simp only [Option.map_some', Option.some.injEq] at hc
    rw [← hc, isWs_toLowerN]
    exact h d hl

theorem noWsLast_lowerStr {l : List Nat} (h : NoWsLast l) :
    NoWsLast (lowerStr l) := by
  unfold NoWsLast lowerStr at *
  rw [← List.map_reverse]
  exact noWsHead_lowerStr h

/-- A string on which every pass of `normalizeKey` acts trivially is a
fixed point of `normalizeKey`. -/
theorem normalizeKey_fixed {r : Str} (h1 : trimWs r = r)
    (h2 : r.map quoteFix = r) (h3 : collapseWs r = r) (h4 : lowerStr r = r) :
    normalizeKey r = r := by
  unfold normalizeKey
  rw [h1, h2, h3, h1, h4]

/-- Every character of a `normalizeKey` output is the lower-cased
image of a space or of a quote-fixed character; in particular it is
never a curly quote. -/
theorem normalizeKey_ne_curly {s : Str} {x : Nat} (hx : x ∈ normalizeKey s) :
    quoteFix x = x := by
  unfold normalizeKey lowerStr at hx
  rcases List.mem_map.mp hx with ⟨c, hc, rfl⟩
  have hc2 := mem_trimWs hc
  rcases mem_collapse hc2 with e | hmem
  · subst e
    rfl
  · rcases List.mem_map.mp hmem with ⟨y, _, rfl⟩
    obtain ⟨n1, n2⟩ := quoteFix_ne_curly y
    obtain ⟨m1, m2⟩ := toLowerN_ne_curly n1 n2
    exact quoteFix_id m1 m2

/-- C8 core: `normalizeKey` is idempotent. -/
theorem normalizeKey_idem (s : Str) : normalizeKey (normalizeKey s) = normalizeKey s := by
  have hcol : Collapsed (normalizeKey s) := by
    unfold normalizeKey
    exact collapsed_lowerStr (collapsed_trimWs (collapsed_collapse _))
  have hhead : NoWsHead (normalizeKey s) := by
    unfold normalizeKey
    exact noWsHead_lowerStr (noWsHead_trimWs _)
  have hlast : NoWsLast (normalizeKey s) := by
    unfold normalizeKey
    exact noWsLast_lowerStr (noWsLast_trimWs _)
  have hlower : lowerStr (normalizeKey s) = normalizeKey s := by
    unfold normalizeKey lowerStr
    rw [List.map_map]
    exact List.map_congr_left (fun x _ => toLowerN_idem x)
  have hquote : (normalizeKey s).map quoteFix = normalizeKey s := by
    have := List.map_congr_left (f := quoteFix) (g := id)
      (l := normalizeKey s) (fun x hx => normalizeKey_ne_curly hx)
    rw [List.map_id] at this
    exact this
  exact normalizeKey_fixed (trimWs_eq_self hhead hlast) hquote
    (collapse_eq_self hcol) hlower
/-- C8: `normalizeKey` identifies strings differing only in case,
leading/trailing whitespace or internal whitespace runs — the three
sample spellings of the name John Doe normalize to the same key — and
`normalizeKey` is idempotent. -/
theorem normalizeKey_stability_and_idem :
    (normalizeKey litJohnDoe = normalizeKey litJohnDoeSpaced ∧
     normalizeKey litJohnDoeSpaced = normalizeKey litJohnDoeUpper ∧
     normalizeKey litJohnDoe = litJohnDoeNorm) ∧
    (∀ s : Str, normalizeKey (normalizeKey s) = normalizeKey s) :=
  ⟨by decide, normalizeKey_idem⟩

/-- A trimmed nonempty string has a non-whitespace head. -/
theorem noWsHead_exists_of_trim_ne_nil {s : Str} (h : trimWs s ≠ []) :
    ∃ c ∈ trimWs s, isWs c = false := by
  cases he : trimWs s with
  | nil => exact absurd he h
  | cons c rest =>
    refine ⟨c, by simp [he], ?_⟩
    have := noWsHead_trimWs s
    rw [he] at this
    exact this c (by simp)

/-- Normalizing a trimmed nonempty string yields a nonempty key (the
non-whitespace character survives every stage). -/
theorem normalizeKey_trim_ne_nil {s : Str} (h : trimWs s ≠ []) :
    normalizeKey (trimWs s) ≠ [] := by
  obtain ⟨c, hc, hcw⟩ := noWsHead_exists_of_trim_ne_nil h
  have htt : trimWs (trimWs s) = trimWs s :=
    trimWs_eq_self (noWsHead_trimWs s) (noWsLast_trimWs s)
  unfold normalizeKey
  rw [htt]
  have h1 : quoteFix c ∈ (trimWs s).map quoteFix := List.mem_map_of_mem _ hc
  have h1w : isWs (quoteFix c) = false := by rw [isWs_quoteFix]; exact hcw
  have h2 : quoteFix c ∈ collapseWs ((trimWs s).map quoteFix) :=
    mem_collapse_of_not_ws h1w h1
  have h3 : quoteFix c ∈ trimWs (collapseWs ((trimWs s).map quoteFix)) :=
    mem_trimWs_of_not_ws h1w h2
  intro hnil
  unfold lowerStr at hnil
  rw [List.map_eq_nil_iff] at hnil
  rw [hnil] at h3
  simp at h3
/-- The grouping key of a `DateInfo`.  The source uses disjoint string
classes: the sentinel literal for unknown dates, ISO "YYYY-MM-DD"
renderings of real dates (modelled by their UTC day number), and
normalized free text for unparseable date cells. -/
inductive DateKey where
  | unknown : DateKey
  | isoDay (d : Nat) : DateKey
  | text (s : Str) : DateKey
deriving DecidableEq

/-- Model of the `DateInfo` record (app/page.tsx lines 82-86): the
grouping key, the ISO date (as a UTC day number) when parseable, and
the display text. -/
structure DateInfo where
  key : DateKey
  iso : Option Nat
  display : Option Str
deriving DecidableEq

/-- The unknown-date sentinel `DateInfo`. -/
def unknownDateInfo : DateInfo := ⟨DateKey.unknown, none, none⟩

/-- A raw date cell as seen by `parseDateCell`: null, a string, a
finite number (spreadsheet serial, modelled as an integer) or a native
date value (modelled by its UTC day number). -/
inductive DateCell where
  | cnull : DateCell
  | cstr (s : Str) : DateCell
  | cnum (n : Int) : DateCell
  | cdate (d : Nat) : DateCell

/-- Decimal rendering of an integer (model of `Number.prototype.toString`
for integral values). -/
def numToStr (n : Int) : Str :=
  if n < 0 then 45 :: (Nat.toDigits 10 n.natAbs).map Char.toNat
  else (Nat.toDigits 10 n.natAbs).map Char.toNat

/-- External date facilities used by `parseDateCell`, kept abstract:
`ssfParse` models `XLSX.SSF.parse_date_code` (a spreadsheet serial to
a UTC day number, or failure) and `jsDateParse` models `new Date(text)`
(free text to a UTC day number, or NaN); `formatDisplay` models the
`Intl.DateTimeFormat` rendering in `formatDisplayDate`. -/
structure DateOracles where
  ssfParse : Int → Option Nat
  jsDateParse : Str → Option Nat
  formatDisplay : Nat → Str

/-- Model of `parseDateCell` (app/page.tsx lines 88-123, part_004
lines 94-129).  Null and the empty string give the unknown-date
sentinel; a native date converts directly; a numeric serial goes
through `ssfParse`; any remaining value is stringified and fed to the
generic date parser, falling back to the normalized text (or the
sentinel when that normalizes to nothing) as the grouping key with the
raw text as display. -/
def parseDateCell (o : DateOracles) (value : DateCell) : DateInfo :=
  match value with
  | DateCell.cnull => unknownDateInfo
  | DateCell.cdate d => ⟨DateKey.isoDay d, some d, some (o.formatDisplay d)⟩
  | DateCell.cnum n =>
    match o.ssfParse n with
    | some d => ⟨DateKey.isoDay d, some d, some (o.formatDisplay d)⟩
    | none =>
      let text := numToStr n
      match o.jsDateParse text with
      | some d => ⟨DateKey.isoDay d, some d, some (o.formatDisplay d)⟩
      | none =>
        let k := normalizeKey text
        ⟨if k = [] then DateKey.unknown else DateKey.text k, none, some text⟩
  | DateCell.cstr s =>
    if s = [] then unknownDateInfo
    else
      let text := trimWs s
      if text = [] then unknownDateInfo
      else
        match o.jsDateParse text with
        | some d => ⟨DateKey.isoDay d, some d, some (o.formatDisplay d)⟩
        | none =>
          let k := normalizeKey text
          ⟨if k = [] then DateKey.unknown else DateKey.text k, none, some text⟩
/-- A trivial oracle assignment: both external parsers always fail and
the display formatter returns the empty string. -/
def dateOraclesNone : DateOracles :=
  ⟨fun _ => none, fun _ => none, fun _ => []⟩

/-- C7: `parseDateCell` is total — it is a function covering every
cell shape — and: null and blank input yield the unknown-date sentinel
with null iso and display; native dates, decodable serials and
parseable text yield ISO dates; non-empty unparseable text yields a
`DateInfo` keyed by the normalized text (never skipped), so equal bad
texts group into the same visit. -/
theorem parseDateCell_total_cases (o : DateOracles) :
    (parseDateCell o DateCell.cnull = unknownDateInfo) ∧
    (∀ s : Str, trimWs s = [] → parseDateCell o (DateCell.cstr s) = unknownDateInfo) ∧
    (∀ d, parseDateCell o (DateCell.cdate d) =
      ⟨DateKey.isoDay d, some d, some (o.formatDisplay d)⟩) ∧
    (∀ n d, o.ssfParse n = some d → parseDateCell o (DateCell.cnum n) =
      ⟨DateKey.isoDay d, some d, some (o.formatDisplay d)⟩) ∧
    (∀ s d, o.jsDateParse (trimWs s) = some d → trimWs s ≠ [] →
      parseDateCell o (DateCell.cstr s) =
        ⟨DateKey.isoDay d, some d, some (o.formatDisplay d)⟩) ∧
    (∀ s, o.jsDateParse (trimWs s) = none → trimWs s ≠ [] →
      parseDateCell o (DateCell.cstr s) =
        ⟨DateKey.text (normalizeKey (trimWs s)), none, some (trimWs s)⟩) := by
  refine ⟨rfl, ?_, fun d => rfl, ?_, ?_, ?_⟩
  · intro s hs
    by_cases he : s = []
    · simp only [parseDateCell, if_pos he]
    · simp only [parseDateCell, if_neg he, if_pos hs]
  · intro n d hn
    simp only [parseDateCell, hn]
  · intro s d hj hs
    have he : s ≠ [] := by
      intro e
      rw [e] at hs
      exact hs rfl
    simp only [parseDateCell, if_neg he, if_neg hs, hj]
  · intro s hj hs
    have he : s ≠ [] := by
      intro e
      rw [e] at hs
      exact hs rfl
    have hk := normalizeKey_trim_ne_nil hs
    simp only [parseDateCell, if_neg he, if_neg hs, hj, if_neg hk]

/-- Witness for C7: the unparseable-text case evaluated on the literal
text A with failing oracles. -/
theorem parseDateCell_total_cases_witness :
    parseDateCell dateOraclesNone (DateCell.cstr litA) =
      ⟨DateKey.text [97], none, some [65]⟩ :=
  ((parseDateCell_total_cases dateOraclesNone).2.2.2.2.2 litA rfl
    (by decide)).trans (by decide)
/-- Lookup in a JavaScript `Map` or plain-object record modelled as an
association list: the value stored under the first matching key. -/
def alookup [DecidableEq κ] (k : κ) : List (κ × β) → Option β
  | [] => none
  | (k2, v) :: rest => if k2 = k then some v else alookup k rest

/-- Insert-or-update for a JavaScript `Map` modelled as an association
list: the pattern `if (!m.has(k)) m.set(k, init); f(m.get(k))` — an
existing key is updated in place (insertion order kept), a new key is
appended with `f init`. -/
def aupsert [DecidableEq κ] (k : κ) (init : β) (f : β → β) :
    List (κ × β) → List (κ × β)
  | [] => [(k, f init)]
  | (k2, v) :: rest =>
    if k2 = k then (k2, f v) :: rest else (k2, v) :: aupsert k init f rest

/-- Model of `MASTER_DEPARTMENTS` (src/lib/departments.ts lines 6-13). -/
def MASTER_DEPARTMENTS : List Str :=
  [litShuttingShirting, litMensEthnic, litKurta, litMensReadymade,
   litSarees, litWomensEthnic]

/-- Model of the `variations` alias table inside `normalizeDepartment`
(src/lib/departments.ts lines 25-47). -/
def departmentVariations : List (Str × Str) :=
  [(litVarMensAccessories, litMensEthnic),
   (litVarMensAposAccessories, litMensEthnic),
   (litVarMensEthnic, litMensEthnic),
   (litVarMensEthnics, litMensEthnic),
   (litVarMenEthnic, litMensEthnic),
   (litVarMenEthnics, litMensEthnic),
   (litVarMensReadymade, litMensReadymade),
   (litVarMenReadymade, litMensReadymade),
   (litVarShirting, litShuttingShirting),
   (litVarShirtingShutting, litShuttingShirting),
   (litVarShutting, litShuttingShirting),
   (litVarWomensEthnic, litWomensEthnic),
   (litVarWomensEthnis, litWomensEthnic),
   (litVarWomenEthnic, litWomensEthnic),
   (litVarWomenEthnis, litWomensEthnic),
   (litVarSaree, litSarees),
   (litVarSari, litSarees),
   (litVarSaris, litSarees)]

/-- Model of `normalizeDepartment` (src/lib/departments.ts lines
21-68): lower-case and trim, then exact master match, then the
variation table, then substring containment in either direction
against the master list in order, else the normalized input itself. -/
def normalizeDepartment (department : Str) : Str :=
  let normalized := trimWs (lowerStr department)
  if normalized ∈ MASTER_DEPARTMENTS then normalized
  else
    match alookup normalized departmentVariations with
    | some v => v
    | none =>
      match MASTER_DEPARTMENTS.find?
          (fun m => containsSub normalized m || containsSub m normalized) with
      | some m => m
      | none => normalized

/-- Model of the library `formatDepartmentCounter` (src/lib/
departments.ts lines 73-90): canonicalize first; drop the row when the
canonical name is outside the master list; otherwise suffix the
counter in parentheses when present. -/
def formatDepartmentCounter (department counter : Str) : Str :=
  let nd := normalizeDepartment department
  if nd ∈ MASTER_DEPARTMENTS then
    if nd ≠ [] ∧ counter ≠ [] then nd ++ [32, 40] ++ counter ++ [41]
    else if nd ≠ [] then nd
    else []
  else []

example : normalizeDepartment litA = litKurta := by decide
example : normalizeDepartment litSarees = litSarees := by decide
example : formatDepartmentCounter litSarees litC1 =
    litSarees ++ [32, 40] ++ litC1 ++ [41] := by decide
example : formatDepartmentCounter litVarSaree litC1 =
    litSarees ++ [32, 40] ++ litC1 ++ [41] := by decide
example : normalizeDepartment [] = litShuttingShirting := by decide
/-- A spreadsheet data row as it reaches the ingestion loop: a list of
string-or-null cells. -/
abbrev Row := List (Option Str)

/-- Model of `row[idx]`: out-of-range access yields undefined, which
stringifies like null. -/
def cellAt (row : Row) (i : Nat) : Option Str := row.getD i none

/-- The stringified content of the cell of `row` in column `i`. -/
def rowCellStr (row : Row) (i : Nat) : Str := stringifyCell (cellAt row i)

/-- The resolved column indices of `parseWorkbook` (app/page.tsx lines
195-203) after the required-columns check: the three required columns
carry plain indices, the optional ones may be absent. -/
structure Columns where
  salesman : Nat
  itemGroup : Nat
  mobile : Nat
  voucherNo : Option Nat
  voucherDate : Option Nat
  departmentName : Option Nat
  counter : Option Nat
  accountName : Option Nat
  salesType : Option Nat
deriving DecidableEq

/-- The per-salesperson record held in the salesman maps: display name
and the set (insertion-ordered list) of handled department labels. -/
structure SalesRec where
  name : Str
  departments : List Str
deriving DecidableEq

/-- Model of `CustomerVisitInfo` (app/page.tsx lines 36-42). -/
structure VisitInfo where
  customerId : Str
  customerName : Option Str
  departments : List Str
  dateIso : Option Nat
  dateKey : DateKey
deriving DecidableEq

/-- A visit key: normalized customer id together with the date
grouping key (the source concatenates them with a separator). -/
abbrev VisitKey := Str × DateKey

/-- The accumulator maps of the ingestion loop (app/page.tsx lines
231-236). -/
structure ParseState where
  salesmanDepartments : List (Str × SalesRec)
  customerVisits : List (VisitKey × VisitInfo)
  customerSalesmen : List (VisitKey × List (Str × SalesRec))
deriving DecidableEq

def emptyParseState : ParseState := ⟨[], [], []⟩

/-- The stringified sales-type cell of a row, empty when the column
was not resolved (app/page.tsx line 259). -/
def rowSalesTypeRaw (cols : Columns) (row : Row) : Str :=
  match cols.salesType with
  | some i => rowCellStr row i
  | none => []

/-- Model of the `isSale` test (app/page.tsx lines 260-261). -/
def rowIsSale (cols : Columns) (row : Row) : Prop :=
  normalizeKey (rowSalesTypeRaw cols row) = litSale ∨
  normalizeKey (rowSalesTypeRaw cols row) = litSales ∨
  lowerStr (rowSalesTypeRaw cols row) = litSale

instance (cols : Columns) (row : Row) : Decidable (rowIsSale cols row) := by
  unfold rowIsSale
  infer_instance

/-- The date info of a row: `parseDateCell` on the voucher-date cell
when that column resolved, else the unknown sentinel (app/page.tsx
line 272); the external date parsing is abstracted by `dp`. -/
def rowDateInfo (voucherDate : Option Nat) (dp : Option Str → DateInfo)
    (row : Row) : DateInfo :=
  match voucherDate with
  | some i => dp (cellAt row i)
  | none => unknownDateInfo

/-- The department label of a row (app/page.tsx lines 302-311): the
canonicalizing `formatDepartmentCounter`, with a fallback to the raw
trimmed item group (counter-suffixed when a counter is present) when
canonicalization produced nothing but the item group is non-empty. -/
def rowDepartmentLabel (rawItemGroup rawCounter : Str) : Str :=
  let label0 := formatDepartmentCounter rawItemGroup rawCounter
  if label0 = [] ∧ rawItemGroup ≠ [] then
    if rawCounter ≠ [] then trimWs rawItemGroup ++ [32, 40] ++ rawCounter ++ [41]
    else trimWs rawItemGroup
  else label0

/-- The aggregation body of one loop iteration of `parseWorkbook`
(app/page.tsx lines 272-376), after the blank-row and sales-type
checks: extract the raw fields and update the three maps.  The
voucher number is extracted by the source but never used afterwards;
`availableDates`/`dateLabels` feed only display labels and are
omitted. -/
def stepRowAggregate (cols : Columns) (dp : Option Str → DateInfo)
    (st : ParseState) (row : Row) : ParseState :=
  let dateInfo := rowDateInfo cols.voucherDate dp row
  let rawSalesman := rowCellStr row cols.salesman
  let rawItemGroup := rowCellStr row cols.itemGroup
  let rawCounter := match cols.counter with
    | some i => rowCellStr row i
    | none => []
  let rawCustomer := rowCellStr row cols.mobile
  let rawAccountName := match cols.accountName with
    | some i => some (rowCellStr row i)
    | none => none
  let salesmanKey := normalizeKey rawSalesman
  let customerKey := normalizeKey rawCustomer
  let departmentLabel := rowDepartmentLabel rawItemGroup rawCounter
  let salesmanName := if rawSalesman = [] then litUnknownSalesman else rawSalesman
  let st1 :=
    if salesmanKey ≠ [] ∧ departmentLabel ≠ [] then
      { st with salesmanDepartments :=
          (aupsert salesmanKey ⟨salesmanName, []⟩
            (fun r => ⟨r.name, insertUniq departmentLabel r.departments⟩)
            st.salesmanDepartments) }
    else st
  let visitKey : VisitKey := (customerKey, dateInfo.key)
  let st2 :=
    if salesmanKey ≠ [] ∧ customerKey ≠ [] ∧ departmentLabel ≠ [] then
      { st1 with customerSalesmen :=
          (aupsert visitKey []
            (fun inner => aupsert salesmanKey ⟨salesmanName, []⟩
              (fun r => ⟨r.name, insertUniq departmentLabel r.departments⟩)
              inner)
            st1.customerSalesmen) }
    else st1
  if customerKey ≠ [] ∧ departmentLabel ≠ [] then
    { st2 with customerVisits :=
        (aupsert visitKey
          ⟨rawCustomer,
           (match rawAccountName with
            | some s => if s = [] then none else some s
            | none => none),
           [], dateInfo.iso, dateInfo.key⟩
          (fun vi => ⟨vi.customerId, vi.customerName,
            insertUniq departmentLabel vi.departments, vi.dateIso, vi.dateKey⟩)
          st2.customerVisits) }
  else st2

/-- One iteration of the ingestion loop of `parseWorkbook`
(app/page.tsx lines 249-376): skip blank rows, skip resolved non-empty
non-sale rows, aggregate the rest. -/
def stepRow (cols : Columns) (dp : Option Str → DateInfo)
    (st : ParseState) (row : Row) : ParseState :=
  if ∀ c ∈ row, stringifyCell c = [] then st
  else if cols.salesType.isSome ∧ rowSalesTypeRaw cols row ≠ [] ∧ ¬rowIsSale cols row then st
  else stepRowAggregate cols dp st row

/-- The whole ingestion loop over the data rows. -/
def parseWorkbookRows (cols : Columns) (dp : Option Str → DateInfo)
    (rows : List Row) : ParseState :=
  rows.foldl (stepRow cols dp) emptyParseState

/-- Model of `uniqueVisitedDepartments` (app/page.tsx lines 384-387):
the visit's own departments unioned with every linked salesperson's
handled departments, in insertion order. -/
def unionDepts (vi : VisitInfo) (salesmen : List (Str × SalesRec)) : List Str :=
  salesmen.foldl
    (fun acc p => p.2.departments.foldl (fun a d => insertUniq d a) acc)
    vi.departments

/-- Model of `BreakdownEntry` (app/page.tsx lines 12-22); the display
date is a pure rendering of `dateIso`/`dateKey` and is omitted. -/
structure BreakdownEntry where
  customerId : Str
  customerName : Option Str
  amount : Nat
  departmentsVisited : Nat
  visitedDepartments : List Str
  handledDepartments : List Str
  dateKey : DateKey
  dateIso : Option Nat
deriving DecidableEq

/-- The breakdown entries one visit contributes (the body of the
`customerVisits.forEach` in app/page.tsx lines 378-420): nothing
without linked salespeople or with a zero tier amount, else one
full-amount entry per linked salesperson, tagged with the salesperson
key and display name. -/
def visitEntries (vi : VisitInfo) (salesmen : List (Str × SalesRec)) :
    List (Str × Str × BreakdownEntry) :=
  if salesmen = [] then []
  else
    let u := unionDepts vi salesmen
    let amt := calculateIncentiveForDepartments u.length
    if amt = 0 then []
    else
      salesmen.map (fun p =>
        (p.1, p.2.name,
         ⟨vi.customerId, vi.customerName, amt, u.length, u,
          p.2.departments, vi.dateKey, vi.dateIso⟩))

/-- Model of the per-salesperson accumulator `InternalBreakdown`
(app/page.tsx lines 31-34). -/
structure InternalBreakdown where
  name : Str
  breakdown : List BreakdownEntry
deriving DecidableEq

/-- Model of the visit-processing stage (app/page.tsx lines 378-420):
fold over the visits; for each visit with linked salespeople, append
its entries into the per-salesperson breakdown map. -/
def processVisits (st : ParseState) : List (Str × InternalBreakdown) :=
  st.customerVisits.foldl
    (fun bm kv =>
      match alookup kv.1 st.customerSalesmen with
      | none => bm
      | some salesmen =>
        (visitEntries kv.2 salesmen).foldl
          (fun b t =>
            aupsert t.1 ⟨t.2.1, []⟩
              (fun ib => ⟨ib.name, ib.breakdown ++ [t.2.2]⟩) b)
          bm)
    []
theorem mem_insertUniq [DecidableEq α] (x y : α) (l : List α) :
    y ∈ insertUniq x l ↔ y ∈ l ∨ y = x := by
  unfold insertUniq
  split_ifs with h
  · constructor
    · exact fun hy => Or.inl hy
    · rintro (hy | rfl)
      · exact hy
      · exact h
  · simp

theorem insertUniq_self_mem [DecidableEq α] (x : α) (l : List α) :
    x ∈ insertUniq x l := by
  rw [mem_insertUniq]
  exact Or.inr rfl

theorem nodup_insertUniq [DecidableEq α] (x : α) {l : List α} (h : l.Nodup) :
    (insertUniq x l).Nodup := by
  unfold insertUniq
  split_ifs with hx
  · exact h
  · simpa [List.nodup_append] using ⟨h, hx⟩

theorem mem_foldl_insertUniq [DecidableEq α] (l acc : List α) (y : α) :
    y ∈ l.foldl (fun a d => insertUniq d a) acc ↔ y ∈ acc ∨ y ∈ l := by
  induction l generalizing acc with
  | nil => simp
  | cons d rest ih =>
    rw [List.foldl_cons, ih, mem_insertUniq]
    constructor
    · rintro ((hy | rfl) | hy)
      · exact Or.inl hy
      · exact Or.inr (by simp)
      · exact Or.inr (List.mem_cons_of_mem _ hy)
    · rintro (hy | hy)
      · exact Or.inl (Or.inl hy)
      · rcases List.mem_cons.mp hy with rfl | hm
        · exact Or.inl (Or.inr rfl)
        · exact Or.inr hm

theorem nodup_foldl_insertUniq [DecidableEq α] (l : List α) {acc : List α}
    (h : acc.Nodup) : (l.foldl (fun a d => insertUniq d a) acc).Nodup := by
  induction l generalizing acc with
  | nil => exact h
  | cons d rest ih => exact ih (nodup_insertUniq d h)

theorem mem_unionDepts (vi : VisitInfo) (salesmen : List (Str × SalesRec)) (y : Str) :
    y ∈ unionDepts vi salesmen ↔
      y ∈ vi.departments ∨ ∃ p ∈ salesmen, y ∈ p.2.departments := by
  unfold unionDepts
  have general : ∀ (sm : List (Str × SalesRec)) (acc : List Str),
      y ∈ sm.foldl (fun acc p => p.2.departments.foldl (fun a d => insertUniq d a) acc) acc ↔
        y ∈ acc ∨ ∃ p ∈ sm, y ∈ p.2.departments := by
    intro sm
    induction sm with
    | nil => simp
    | cons p rest ih =>
      intro acc
      rw [List.foldl_cons, ih, mem_foldl_insertUniq]
      constructor
      · rintro ((hy | hy) | ⟨q, hq, hyq⟩)
        · exact Or.inl hy
        · exact Or.inr ⟨p, by simp, hy⟩
        · exact Or.inr ⟨q, List.mem_cons_of_mem _ hq, hyq⟩
      · rintro (hy | ⟨q, hq, hyq⟩)
        · exact Or.inl (Or.inl hy)
        · rcases List.mem_cons.mp hq with rfl | hm
          · exact Or.inl (Or.inr hyq)
          · exact Or.inr ⟨q, hm, hyq⟩
  exact general salesmen vi.departments

theorem nodup_unionDepts (vi : VisitInfo) (salesmen : List (Str × SalesRec))
    (h : vi.departments.Nodup) : (unionDepts vi salesmen).Nodup := by
  unfold unionDepts
  have general : ∀ (sm : List (Str × SalesRec)) (acc : List Str), acc.Nodup →
      (sm.foldl (fun acc p => p.2.departments.foldl (fun a d => insertUniq d a) acc) acc).Nodup := by
    intro sm
    induction sm with
    | nil => exact fun acc h => h
    | cons p rest ih =>
      intro acc hacc
      exact ih _ (nodup_foldl_insertUniq _ hacc)
  exact general salesmen vi.departments h

/-- C1: attribution.  A visit with no linked salespeople produces no
breakdown entries; a visit whose tier amount is zero produces none;
otherwise exactly one entry per linked salesperson is produced, keyed
by that salesperson, each carrying the full tier amount (never the
amount divided by the number of salespeople). -/
theorem visitEntries_attribution (vi : VisitInfo) (salesmen : List (Str × SalesRec)) :
    (salesmen = [] → visitEntries vi salesmen = []) ∧
    (calculateIncentiveForDepartments (unionDepts vi salesmen).length = 0 →
      visitEntries vi salesmen = []) ∧
    (calculateIncentiveForDepartments (unionDepts vi salesmen).length ≠ 0 →
      (visitEntries vi salesmen).length = salesmen.length ∧
      (visitEntries vi salesmen).map (fun t => t.1) = salesmen.map (fun p => p.1) ∧
      ∀ t ∈ visitEntries vi salesmen,
        t.2.2.amount = calculateIncentiveForDepartments (unionDepts vi salesmen).length) := by
  refine ⟨?_, ?_, ?_⟩
  · intro h
    unfold visitEntries
    rw [if_pos h]
  · intro h
    unfold visitEntries
    split_ifs with h1
    · rfl
    · dsimp only
      rw [if_pos h]
  · intro h
    unfold visitEntries
    split_ifs with h1
    · refine ⟨by simp [h1], by simp [h1], by simp [h1]⟩
    · dsimp only
      rw [if_neg h]
      refine ⟨by simp, ?_, ?_⟩
      · rw [List.map_map]
        rfl
      · intro t ht
        rcases List.mem_map.mp ht with ⟨p, _, rfl⟩
        rfl

/-- Witness for C1: a concrete visit with two linked salespeople and
three distinct departments in the union: two entries, both with the
full amount 40. -/
theorem visitEntries_attribution_witness :
    (visitEntries ⟨litNine, none, [litA], none, DateKey.unknown⟩
      [(litX, ⟨litX, [litC1]⟩), (litSarees, ⟨litSarees, [litC2]⟩)]).length = 2 ∧
    ∀ t ∈ visitEntries ⟨litNine, none, [litA], none, DateKey.unknown⟩
      [(litX, ⟨litX, [litC1]⟩), (litSarees, ⟨litSarees, [litC2]⟩)],
        t.2.2.amount = 40 := by
  have h := (visitEntries_attribution ⟨litNine, none, [litA], none, DateKey.unknown⟩
    [(litX, ⟨litX, [litC1]⟩), (litSarees, ⟨litSarees, [litC2]⟩)]).2.2 (by decide)
  refine ⟨h.1.trans (by decide), ?_⟩
  intro t ht
  exact (h.2.2 t ht).trans (by decide)

/-- C3: the union invariant.  The department list fed to the tier
function and recorded on every entry of a visit is exactly the union
of the visit's own departments and every linked salesperson's handled
departments — its length is the cardinality of that union (the list is
duplicate-free when the visit's own set is), never a proper subset. -/
theorem visitEntries_union_invariant (vi : VisitInfo)
    (salesmen : List (Str × SalesRec)) (hnd : vi.departments.Nodup) :
    (unionDepts vi salesmen).Nodup ∧
    (∀ d, d ∈ unionDepts vi salesmen ↔
      d ∈ vi.departments ∨ ∃ p ∈ salesmen, d ∈ p.2.departments) ∧
    (∀ t ∈ visitEntries vi salesmen,
      t.2.2.departmentsVisited = (unionDepts vi salesmen).length ∧
      t.2.2.visitedDepartments = unionDepts vi salesmen) := by
  refine ⟨nodup_unionDepts vi salesmen hnd, fun d => mem_unionDepts vi salesmen d, ?_⟩
  intro t ht
  unfold visitEntries at ht
  split_ifs at ht with h1
  · simp at ht
  · dsimp only at ht
    split_ifs at ht with h2
    · simp at ht
    · rcases List.mem_map.mp ht with ⟨p, _, rfl⟩
      exact ⟨rfl, rfl⟩

/-- Witness for C3: the invariant applied to a concrete visit whose
union spans both sides. -/
theorem visitEntries_union_invariant_witness :
    (unionDepts ⟨litNine, none, [litA], none, DateKey.unknown⟩
        [(litX, ⟨litX, [litC1]⟩)]).Nodup ∧
    unionDepts ⟨litNine, none, [litA], none, DateKey.unknown⟩
        [(litX, ⟨litX, [litC1]⟩)] = [litA, litC1] := by
  have h := visitEntries_union_invariant ⟨litNine, none, [litA], none, DateKey.unknown⟩
    [(litX, ⟨litX, [litC1]⟩)] (by decide)
  exact ⟨h.1, by decide⟩
/-- A date oracle that never parses anything (the demo rows carry no
date column, so it is never consulted). -/
def dpUnknown : Option Str → DateInfo := fun _ => unknownDateInfo

/-- Demo column layout for the sales-type scenario: salesman 0, item
group 1, customer id 2, sales type 3, everything else absent. -/
def demoColsC5 : Columns := ⟨0, 1, 2, none, none, none, none, none, some 3⟩

/-- Demo row: type Sale, department A, one customer. -/
def rowSaleA : Row := [some litX, some litA, some litNine, some litSaleCap]

/-- Demo row: type Return, department A, same customer. -/
def rowReturnA : Row := [some litX, some litA, some litNine, some litReturn]

/-- Demo row: blank type, department A, same customer. -/
def rowBlankA : Row := [some litX, some litA, some litNine, some []]

/-- C5: sales-type filtering.  A row whose resolved sales-type cell is
non-empty and not a sale leaves the whole parse state untouched
(contributes to no visit, no salesperson record, no incentive); a row
with no sales-type column or an empty sales-type cell proceeds to
aggregation; and on the concrete Sale/Return/blank scenario for one
customer and day the Return row is dropped — the run equals the run
without it — while the blank-type row alone does populate the visit
department set. -/
theorem stepRow_salesType_filter :
    (∀ cols dp st row, cols.salesType.isSome → rowSalesTypeRaw cols row ≠ [] →
      ¬rowIsSale cols row → stepRow cols dp st row = st) ∧
    (∀ cols dp st row, ¬(∀ c ∈ row, stringifyCell c = []) →
      (cols.salesType = none ∨ rowSalesTypeRaw cols row = []) →
      stepRow cols dp st row = stepRowAggregate cols dp st row) ∧
    (parseWorkbookRows demoColsC5 dpUnknown [rowSaleA, rowReturnA, rowBlankA] =
      parseWorkbookRows demoColsC5 dpUnknown [rowSaleA, rowBlankA]) ∧
    (∃ vi, alookup (normalizeKey litNine, DateKey.unknown)
        (parseWorkbookRows demoColsC5 dpUnknown [rowBlankA]).customerVisits = some vi ∧
      vi.departments = [litKurta]) := by
  refine ⟨?_, ?_, by decide, by decide⟩
  · intro cols dp st row hsome hraw hnot
    unfold stepRow
    split_ifs with h1 h2
    · rfl
    · rfl
    · exact absurd ⟨hsome, hraw, hnot⟩ h2
  · intro cols dp st row hne hor
    unfold stepRow
    rw [if_neg hne, if_neg]
    rintro ⟨h1, h2, _⟩
    rcases hor with hnone | hempty
    · rw [hnone] at h1
      simp at h1
    · exact h2 hempty

/-- Witness for C5: the exclusion lemma applied to the concrete Return
row, and the inclusion lemma applied to the blank-type row. -/
theorem stepRow_salesType_filter_witness :
    stepRow demoColsC5 dpUnknown emptyParseState rowReturnA = emptyParseState ∧
    stepRow demoColsC5 dpUnknown emptyParseState rowBlankA =
      stepRowAggregate demoColsC5 dpUnknown emptyParseState rowBlankA := by
  constructor
  · exact stepRow_salesType_filter.1 demoColsC5 dpUnknown emptyParseState rowReturnA
      (by decide) (by decide) (by decide)
  · exact stepRow_salesType_filter.2.1 demoColsC5 dpUnknown emptyParseState rowBlankA
      (by decide) (Or.inr (by decide))
/-- Demo column layout for the counter-dedup scenario: salesman 0,
item group 1, customer id 2, counter 3. -/
def demoColsC4 : Columns := ⟨0, 1, 2, none, none, none, some 3, none, none⟩

/-- Demo row: department sarees billed at counter C1. -/
def rowSareesC1 : Row := [some litX, some litSarees, some litNine, some litC1]

/-- Demo row: department sarees billed at counter C2, same customer
and (unknown) day. -/
def rowSareesC2 : Row := [some litX, some litSarees, some litNine, some litC2]

/-- Counterexample to C4: a visit consisting of two rows of the same
canonical department (sarees) billed at two different counters is
counted as TWO visited departments by the tier computation — the
breakdown entries exist (tier 20), record `departmentsVisited = 2`,
and list both counter-qualified labels.  Under the claim the two rows
would count as one department, the tier would be 0, and no entries
would exist. -/
theorem counter_dedup_counterexample :
    processVisits (parseWorkbookRows demoColsC4 dpUnknown
      [rowSareesC1, rowSareesC2]) ≠ [] ∧
    ∀ p ∈ processVisits (parseWorkbookRows demoColsC4 dpUnknown
      [rowSareesC1, rowSareesC2]),
      ∀ e ∈ p.2.breakdown,
        e.departmentsVisited = 2 ∧ e.amount = 20 ∧
        e.visitedDepartments =
          [litSarees ++ [32, 40] ++ litC1 ++ [41],
           litSarees ++ [32, 40] ++ litC2 ++ [41]] := by
  decide

/-- C4 as amended: canonicalization does happen before
counter-suffixing — every non-empty department label is a canonical
master-list name, optionally followed by the counter in parentheses —
but the tier computation deduplicates by the counter-qualified display
label, so the same canonical department billed at two different
counters counts as two visited departments. -/
theorem canonical_before_suffix_label_dedup :
    (∀ d c, formatDepartmentCounter d c = [] ∨
      (normalizeDepartment d ∈ MASTER_DEPARTMENTS ∧
       formatDepartmentCounter d c = normalizeDepartment d ++
         (if c = [] then [] else [32, 40] ++ c ++ [41]))) ∧
    (∀ p ∈ processVisits (parseWorkbookRows demoColsC4 dpUnknown
        [rowSareesC1, rowSareesC2]),
      ∀ e ∈ p.2.breakdown, e.departmentsVisited = 2) := by
  constructor
  · intro d c
    have hmaster : ∀ m ∈ MASTER_DEPARTMENTS, m ≠ [] := by decide
    by_cases h1 : normalizeDepartment d ∈ MASTER_DEPARTMENTS
    · have hnd : normalizeDepartment d ≠ [] := hmaster _ h1
      by_cases hc : c = []
      · refine Or.inr ⟨h1, ?_⟩
        rw [if_pos hc, List.append_nil]
        unfold formatDepartmentCounter
        dsimp only
        rw [if_pos h1, if_neg (by rintro ⟨_, hcc⟩; exact hcc hc), if_pos hnd]
      · refine Or.inr ⟨h1, ?_⟩
        rw [if_neg hc]
        unfold formatDepartmentCounter
        dsimp only
        rw [if_pos h1, if_pos ⟨hnd, hc⟩]
        simp [List.append_assoc]
    · refine Or.inl ?_
      unfold formatDepartmentCounter
      dsimp only
      rw [if_neg h1]
  · decide
/-- The first counter-qualified demo label. -/
def demoLabel1 : Str := litSarees ++ [32, 40] ++ litC1 ++ [41]

/-- The second counter-qualified demo label. -/
def demoLabel2 : Str := litSarees ++ [32, 40] ++ litC2 ++ [41]

/-- The breakdown entry produced by the two-counter demo visit. -/
def demoEntryC4 : BreakdownEntry :=
  ⟨litNine, none, 20, 2, [demoLabel1, demoLabel2], [demoLabel1, demoLabel2],
   DateKey.unknown, none⟩

/-- The breakdown-map pair produced by the two-counter demo. -/
def demoPairC4 : Str × InternalBreakdown := ([120], ⟨litX, [demoEntryC4]⟩)

/-- Witness for the amended C4: the dedup conjunct applied to the
concrete two-counter run. -/
theorem canonical_before_suffix_label_dedup_witness :
    demoEntryC4.departmentsVisited = 2 :=
  canonical_before_suffix_label_dedup.2 demoPairC4 (by decide) demoEntryC4 (by decide)
/-- Model of `normalizedHeader` (app/page.tsx line 169): stringify
each header cell, normalize quotes, trim. -/
def normalizedHeaderOf (header : List (Option Str)) : List Str :=
  header.map (fun c => trimWs ((stringifyCell c).map quoteFix))

/-- The loop body of `findHeaderIndex` (app/page.tsx lines 175-193)
over the zipped lower-cased and normalized header labels, with the
running column index: skip empty labels; match a lowered target by
equality, containment, or equality against the lower-cased normalized
label. -/
def findHeaderIndexAux (lowered : List Str) :
    List (Str × Str) → Nat → Option Nat
  | [], _ => none
  | (lbl, nh) :: rest, i =>
    if lbl = [] then findHeaderIndexAux lowered rest (i + 1)
    else if lowered.any (fun t =>
        decide (lbl = t) || containsSub lbl t || decide (lowerStr nh = t)) then
      some i
    else findHeaderIndexAux lowered rest (i + 1)

/-- Model of `findHeaderIndex` (app/page.tsx lines 175-193): first
matching column from the left, or none. -/
def findHeaderIndex (normalizedHeader : List Str) (targets : List Str) : Option Nat :=
  findHeaderIndexAux (targets.map lowerStr)
    ((normalizedHeader.map lowerStr).zip normalizedHeader) 0

/-- Alias lists of the header resolution (app/page.tsx lines 195-203). -/
def aliasesVoucherNo : List Str := [litAliasVoucherNo]

def aliasesVoucherDate : List Str := [litAliasVoucherDate, litAliasDate]

def aliasesSalesman : List Str := [litAliasSalesmanName, litAliasSalesPerson]

def aliasesDepartmentName : List Str :=
  [litAliasDepartmentName, litAliasDepartment, litAliasDeptName, litAliasMainCategory]

def aliasesItemGroup : List Str :=
  [litAliasItemgroupName, litAliasItemGroupName, litAliasItemGroup,
   litAliasSubCategory, litAliasSubcategory]

def aliasesCounter : List Str := [litAliasCounterName, litAliasCounter]

def aliasesMobile : List Str :=
  [litAliasMobile1, litAliasCustomerId, litAliasCustomerMobile]

def aliasesAccountName : List Str :=
  [litAliasAccountName, litAliasCustomerName, litAliasAccount]

def aliasesSalesType : List Str :=
  [litAliasSalesType, litAliasType, litAliasTransactionType, litAliasSaleType]

/-- The resolved salesman column of a header row. -/
def salesmanIdxOf (header : List (Option Str)) : Option Nat :=
  findHeaderIndex (normalizedHeaderOf header) aliasesSalesman

/-- The resolved item-group (department) column of a header row. -/
def itemGroupIdxOf (header : List (Option Str)) : Option Nat :=
  findHeaderIndex (normalizedHeaderOf header) aliasesItemGroup

/-- The resolved customer-id column of a header row. -/
def mobileIdxOf (header : List (Option Str)) : Option Nat :=
  findHeaderIndex (normalizedHeaderOf header) aliasesMobile

/-- Model of the missing-required-columns error (app/page.tsx lines
219-229): the names of the missing logical fields and the literal
non-empty header labels that were found. -/
structure MissingColumnsError where
  missing : List Str
  foundHeaders : List Str
deriving DecidableEq

/-- Model of the header-resolution phase of `parseWorkbook`
(app/page.tsx lines 195-229): resolve all columns, fail with a
`MissingColumnsError` when any of the three required columns is
unresolved, succeed with the column map otherwise. -/
def resolveColumns (header : List (Option Str)) :
    Except MissingColumnsError Columns :=
  let nh := normalizedHeaderOf header
  match salesmanIdxOf header, itemGroupIdxOf header, mobileIdxOf header with
  | some s, some g, some m =>
    Except.ok ⟨s, g, m, findHeaderIndex nh aliasesVoucherNo,
      findHeaderIndex nh aliasesVoucherDate,
      findHeaderIndex nh aliasesDepartmentName,
      findHeaderIndex nh aliasesCounter,
      findHeaderIndex nh aliasesAccountName,
      findHeaderIndex nh aliasesSalesType⟩
  | _, _, _ =>
    Except.error
      ⟨(if salesmanIdxOf header = none then [litErrSalesmanName] else []) ++
       (if itemGroupIdxOf header = none then [litErrItemGroupName] else []) ++
       (if mobileIdxOf header = none then [litErrMobile1] else []),
       nh.filter (fun h => decide (h ≠ []))⟩
theorem mem_ite_triple_first {A B C : Prop} [Decidable A] [Decidable B]
    [Decidable C] (x y z : Str) (hxy : x ≠ y) (hxz : x ≠ z) :
    x ∈ (if A then [x] else []) ++ (if B then [y] else []) ++
      (if C then [z] else []) ↔ A := by
  split_ifs <;> simp_all

theorem mem_ite_triple_mid {A B C : Prop} [Decidable A] [Decidable B]
    [Decidable C] (x y z : Str) (hyx : y ≠ x) (hyz : y ≠ z) :
    y ∈ (if A then [x] else []) ++ (if B then [y] else []) ++
      (if C then [z] else []) ↔ B := by
  split_ifs <;> simp_all

theorem mem_ite_triple_last {A B C : Prop} [Decidable A] [Decidable B]
    [Decidable C] (x y z : Str) (hzx : z ≠ x) (hzy : z ≠ y) :
    z ∈ (if A then [x] else []) ++ (if B then [y] else []) ++
      (if C then [z] else []) ↔ C := by
  split_ifs <;> simp_all

/-- C6: the required-columns contract.  When any of the three required
logical columns (salesperson, department/item-group, customer id)
fails to resolve, `resolveColumns` fails with an error that names
exactly the missing logical fields and echoes the literal non-empty
header labels found; when all three resolve, it succeeds — no
missing-column error — whatever the optional columns do. -/
theorem resolveColumns_required_contract (header : List (Option Str)) :
    (salesmanIdxOf header = none ∨ itemGroupIdxOf header = none ∨
        mobileIdxOf header = none →
      ∃ e, resolveColumns header = Except.error e ∧
        e.foundHeaders = (normalizedHeaderOf header).filter (fun h => decide (h ≠ [])) ∧
        e.missing ≠ [] ∧
        (litErrSalesmanName ∈ e.missing ↔ salesmanIdxOf header = none) ∧
        (litErrItemGroupName ∈ e.missing ↔ itemGroupIdxOf header = none) ∧
        (litErrMobile1 ∈ e.missing ↔ mobileIdxOf header = none)) ∧
    (∀ s g m, salesmanIdxOf header = some s → itemGroupIdxOf header = some g →
      mobileIdxOf header = some m →
      ∃ cols, resolveColumns header = Except.ok cols ∧
        cols.salesman = s ∧ cols.itemGroup = g ∧ cols.mobile = m) := by
  constructor
  · intro hreq
    have hE : resolveColumns header = Except.error
        ⟨(if salesmanIdxOf header = none then [litErrSalesmanName] else []) ++
         (if itemGroupIdxOf header = none then [litErrItemGroupName] else []) ++
         (if mobileIdxOf header = none then [litErrMobile1] else []),
         (normalizedHeaderOf header).filter (fun h => decide (h ≠ []))⟩ := by
      unfold resolveColumns
      rcases hS : salesmanIdxOf header with _ | s <;>
        rcases hG : itemGroupIdxOf header with _ | g <;>
          rcases hM : mobileIdxOf header with _ | m
      case some.some.some =>
        rcases hreq with h | h | h
        · rw [hS] at h
          exact Option.noConfusion h
        · rw [hG] at h
          exact Option.noConfusion h
        · rw [hM] at h
          exact Option.noConfusion h
      all_goals rfl
    refine ⟨_, hE, rfl, ?_, ?_, ?_, ?_⟩
    · rcases hreq with h | h | h <;> simp [h]
    · exact mem_ite_triple_first _ _ _ (by decide) (by decide)
    · exact mem_ite_triple_mid _ _ _ (by decide) (by decide)
    · exact mem_ite_triple_last _ _ _ (by decide) (by decide)
  · intro s g m hS hG hM
    refine ⟨⟨s, g, m,
      findHeaderIndex (normalizedHeaderOf header) aliasesVoucherNo,
      findHeaderIndex (normalizedHeaderOf header) aliasesVoucherDate,
      findHeaderIndex (normalizedHeaderOf header) aliasesDepartmentName,
      findHeaderIndex (normalizedHeaderOf header) aliasesCounter,
      findHeaderIndex (normalizedHeaderOf header) aliasesAccountName,
      findHeaderIndex (normalizedHeaderOf header) aliasesSalesType⟩, ?_, rfl, rfl, rfl⟩
    unfold resolveColumns
    rw [hS, hG, hM]
/-- A demo header missing the salesperson column. -/
def hdrMissingSalesman : List (Option Str) := [some litErrItemGroupName, some litErrMobile1]

/-- A demo header carrying exactly the three required columns and no
optional ones. -/
def hdrRequiredOnly : List (Option Str) :=
  [some litErrSalesmanName, some litErrItemGroupName, some litErrMobile1]

/-- Witness for C6: the contract applied to a header missing the
salesperson column and to a header with exactly the three required
columns. -/
theorem resolveColumns_required_contract_witness :
    (∃ e, resolveColumns hdrMissingSalesman = Except.error e ∧
      e.foundHeaders = (normalizedHeaderOf hdrMissingSalesman).filter (fun h => decide (h ≠ [])) ∧
      e.missing ≠ [] ∧
      (litErrSalesmanName ∈ e.missing ↔ salesmanIdxOf hdrMissingSalesman = none) ∧
      (litErrItemGroupName ∈ e.missing ↔ itemGroupIdxOf hdrMissingSalesman = none) ∧
      (litErrMobile1 ∈ e.missing ↔ mobileIdxOf hdrMissingSalesman = none)) ∧
    (∃ cols, resolveColumns hdrRequiredOnly = Except.ok cols ∧
      cols.salesman = 0 ∧ cols.itemGroup = 1 ∧ cols.mobile = 2) :=
  ⟨(resolveColumns_required_contract hdrMissingSalesman).1 (Or.inl (by decide)),
   (resolveColumns_required_contract hdrRequiredOnly).2 0 1 2
     (by decide) (by decide) (by decide)⟩
/-- The three timeframe modes of the dashboard filter (app/page.tsx
line 510). -/
inductive Timeframe where
  | all : Timeframe
  | day : Timeframe
  | week : Timeframe
deriving DecidableEq

/-- Model of `toTimestamp` (app/page.tsx line 522): the UTC midnight
millisecond timestamp of an ISO day. -/
def toTimestamp (d : Nat) : Nat := d * 86400000

/-- Model of `addDaysToIso` (app/page.tsx lines 125-130): UTC calendar
day arithmetic, which on day numbers is plain addition. -/
def addDaysToIso (d : Nat) (days : Nat) : Nat := d + days

/-- Model of `filterPredicate` (app/page.tsx lines 585-610): `all`
keeps everything; `day` keeps entries dated exactly the selected day;
`week` keeps entries whose date lies within the closed window from the
anchor to the anchor plus six days; an unset anchor or a null entry
date yields false in `day`/`week`. -/
def filterPredicate (tf : Timeframe) (selectedDay weekStart : Option Nat)
    (e : BreakdownEntry) : Bool :=
  match tf with
  | Timeframe.all => true
  | Timeframe.day =>
    match selectedDay with
    | none => false
    | some sd => decide (e.dateIso = some sd)
  | Timeframe.week =>
    match weekStart with
    | none => false
    | some w =>
      match e.dateIso with
      | none => false
      | some d =>
        decide (toTimestamp w ≤ toTimestamp d ∧
          toTimestamp d ≤ toTimestamp (addDaysToIso w 6))

/-- A breakdown entry carrying only a date, for boundary checks. -/
def mkDatedEntry (d : Option Nat) : BreakdownEntry :=
  ⟨[], none, 0, 0, [], [], DateKey.unknown, d⟩

/-- C9: the timeframe filter.  Under `week` with anchor `w` an entry
is kept iff it has a non-null date within the closed interval from `w`
to `w + 6` computed by UTC calendar arithmetic — both boundary days
are kept, one day outside either boundary is dropped; under `day` it
is kept iff its date equals the selected day; entries with a null date
are dropped by `day` and `week` but kept by `all`. -/
theorem filterPredicate_timeframes :
    (∀ sd ws e, filterPredicate Timeframe.all sd ws e = true) ∧
    (∀ sd ws e, filterPredicate Timeframe.day (some sd) ws e = true ↔
      e.dateIso = some sd) ∧
    (∀ sd w e, filterPredicate Timeframe.week sd (some w) e = true ↔
      ∃ d, e.dateIso = some d ∧ w ≤ d ∧ d ≤ w + 6) ∧
    (∀ sd w, filterPredicate Timeframe.week sd (some w) (mkDatedEntry (some w)) = true ∧
      filterPredicate Timeframe.week sd (some w) (mkDatedEntry (some (w + 6))) = true ∧
      filterPredicate Timeframe.week sd (some w) (mkDatedEntry (some (w + 7))) = false ∧
      (0 < w →
        filterPredicate Timeframe.week sd (some w) (mkDatedEntry (some (w - 1))) = false)) ∧
    (∀ sd w ws sd2,
      filterPredicate Timeframe.day (some sd) ws (mkDatedEntry none) = false ∧
      filterPredicate Timeframe.week sd2 (some w) (mkDatedEntry none) = false ∧
      filterPredicate Timeframe.all sd2 (some w) (mkDatedEntry none) = true) := by
  refine ⟨fun sd ws e => rfl, ?_, ?_, ?_, ?_⟩
  · intro sd ws e
    simp [filterPredicate]
  · intro sd w e
    cases hdi : e.dateIso with
    | none => simp [filterPredicate, hdi]
    | some d =>
      simp only [filterPredicate, hdi, decide_eq_true_eq, toTimestamp, addDaysToIso]
      constructor
      · rintro ⟨h1, h2⟩
        exact ⟨d, rfl, by omega, by omega⟩
      · rintro ⟨d2, hd2, h1, h2⟩
        injection hd2 with hd2
        subst hd2
        omega
  · intro sd w
    refine ⟨?_, ?_, ?_, ?_⟩
    · simp [filterPredicate, mkDatedEntry, toTimestamp, addDaysToIso]
    · simp only [filterPredicate, mkDatedEntry, toTimestamp, addDaysToIso,
        decide_eq_true_eq]
      omega
    · simp only [filterPredicate, mkDatedEntry, toTimestamp, addDaysToIso,
        decide_eq_false_iff_not]
      omega
    · intro hw
      simp only [filterPredicate, mkDatedEntry, toTimestamp, addDaysToIso,
        decide_eq_false_iff_not]
      omega
  · intro sd w ws sd2
    refine ⟨by simp [filterPredicate, mkDatedEntry], by simp [filterPredicate, mkDatedEntry], rfl⟩

/-- Witness for C9: the boundary conjunct applied at anchor day 10,
including the below-start exclusion. -/
theorem filterPredicate_timeframes_witness :
    filterPredicate Timeframe.week none (some 10) (mkDatedEntry (some 9)) = false :=
  ((filterPredicate_timeframes.2.2.2.1 none 10).2.2.2) (by decide)
/-- The resolved columns of the part_004 variant of `parseWorkbook`
(src/unnamed/part_004 lines 198-203): no department-name, account-name
or sales-type columns exist there. -/
structure ColumnsP4 where
  salesman : Nat
  itemGroup : Nat
  mobile : Nat
  voucherNo : Option Nat
  voucherDate : Option Nat
  counter : Option Nat
deriving DecidableEq

/-- Model of `CustomerVisitInfo` of the part_004 variant (src/unnamed/
part_004 lines 31-36): no customer display name. -/
structure VisitInfoP4 where
  customerId : Str
  departments : List Str
  dateIso : Option Nat
  dateKey : DateKey
deriving DecidableEq

/-- The accumulator maps of the part_004 ingestion loop (src/unnamed/
part_004 lines 209-218).  The `customerInteractions` list feeds only
the CRM view and is omitted. -/
structure ParseStateP4 where
  salesmanDepartments : List (Str × SalesRec)
  customerVisits : List (VisitKey × VisitInfoP4)
  customerSalesmen : List (VisitKey × List (Str × SalesRec))
deriving DecidableEq

def emptyParseStateP4 : ParseStateP4 := ⟨[], [], []⟩

/-- Model of the local `formatDepartmentCounter` of the part_004
variant (src/unnamed/part_004 lines 220-225): no canonicalization —
department with counter in parentheses, or whichever of the two is
non-empty, or empty. -/
def formatDepartmentCounterP4 (department counter : Str) : Str :=
  if department ≠ [] ∧ counter ≠ [] then department ++ [32, 40] ++ counter ++ [41]
  else if department ≠ [] then department
  else if counter ≠ [] then counter
  else []

/-- One iteration of the part_004 ingestion loop (src/unnamed/part_004
lines 227-314): skip blank rows; record the salesman (and the label
when non-empty); record the visit-salesman link when both keys are
non-empty (and the label when non-empty); record the visit when the
customer key is non-empty (and the label when non-empty). -/
def stepRowP4 (cols : ColumnsP4) (dp : Option Str → DateInfo)
    (st : ParseStateP4) (row : Row) : ParseStateP4 :=
  if ∀ c ∈ row, stringifyCell c = [] then st
  else
    let dateInfo := rowDateInfo cols.voucherDate dp row
    let rawSalesman := rowCellStr row cols.salesman
    let rawDepartment := rowCellStr row cols.itemGroup
    let rawCounter := match cols.counter with
      | some i => rowCellStr row i
      | none => []
    let rawCustomer := rowCellStr row cols.mobile
    let salesmanKey := normalizeKey rawSalesman
    let customerKey := normalizeKey rawCustomer
    let departmentLabel := formatDepartmentCounterP4 rawDepartment rawCounter
    let salesmanName := if rawSalesman = [] then litUnknownSalesman else rawSalesman
    let addLabel : SalesRec → SalesRec := fun r =>
      if departmentLabel ≠ [] then ⟨r.name, insertUniq departmentLabel r.departments⟩
      else r
    let st1 :=
      if salesmanKey ≠ [] then
        { st with salesmanDepartments :=
            (aupsert salesmanKey ⟨salesmanName, []⟩ addLabel st.salesmanDepartments) }
      else st
    let visitKey : VisitKey := (customerKey, dateInfo.key)
    let st2 :=
      if salesmanKey ≠ [] ∧ customerKey ≠ [] then
        { st1 with customerSalesmen :=
            (aupsert visitKey []
              (fun inner => aupsert salesmanKey ⟨salesmanName, []⟩ addLabel inner)
              st1.customerSalesmen) }
      else st1
    if customerKey ≠ [] then
      { st2 with customerVisits :=
          (aupsert visitKey ⟨rawCustomer, [], dateInfo.iso, dateInfo.key⟩
            (fun vi =>
              if departmentLabel ≠ [] then
                ⟨vi.customerId, insertUniq departmentLabel vi.departments,
                 vi.dateIso, vi.dateKey⟩
              else vi)
            st2.customerVisits) }
    else st2

theorem alookup_aupsert_self [DecidableEq κ] (k : κ) (init : β) (f : β → β)
    (m : List (κ × β)) :
    alookup k (aupsert k init f m) = some (f ((alookup k m).getD init)) := by
  induction m with
  | nil => simp [alookup, aupsert]
  | cons p rest ih =>
    obtain ⟨k2, v⟩ := p
    by_cases h : k2 = k
    · simp [alookup, aupsert, h]
    · simp [alookup, aupsert, h, ih]

theorem not_all_empty_of_cell {row : Row} {i : Nat}
    (h : stringifyCell (cellAt row i) ≠ []) :
    ¬ ∀ c ∈ row, stringifyCell c = [] := by
  intro hall
  unfold cellAt at h
  by_cases hi : i < row.length
  · rw [List.getD_eq_getElem?_getD, List.getElem?_eq_getElem hi] at h
    exact h (hall _ (List.getElem_mem hi))
  · rw [List.getD_eq_getElem?_getD, List.getElem?_eq_none (by omega)] at h
    exact h rfl
/-- C10: in the part_004 parser, a row with an empty department cell
and a non-empty counter cell gets the bare counter name as its
department label, and that label is added to the visit department set,
to the per-visit handling salesperson's set, and to the salesperson's
lifetime set — so a counter value with no department raises the
distinct-department count that feeds the incentive tier. -/
theorem stepRowP4_counter_only_department
    (cols : ColumnsP4) (dp : Option Str → DateInfo) (st : ParseStateP4) (row : Row)
    (i : Nat) (hcol : cols.counter = some i)
    (hdept : rowCellStr row cols.itemGroup = [])
    (hcnt : rowCellStr row i ≠ [])
    (hsk : normalizeKey (rowCellStr row cols.salesman) ≠ [])
    (hck : normalizeKey (rowCellStr row cols.mobile) ≠ []) :
    formatDepartmentCounterP4 (rowCellStr row cols.itemGroup) (rowCellStr row i) =
      rowCellStr row i ∧
    (∃ vi, alookup (normalizeKey (rowCellStr row cols.mobile),
        (rowDateInfo cols.voucherDate dp row).key)
        ((stepRowP4 cols dp st row).customerVisits) = some vi ∧
      rowCellStr row i ∈ vi.departments) ∧
    (∃ inner, alookup (normalizeKey (rowCellStr row cols.mobile),
        (rowDateInfo cols.voucherDate dp row).key)
        ((stepRowP4 cols dp st row).customerSalesmen) = some inner ∧
      ∃ r, alookup (normalizeKey (rowCellStr row cols.salesman)) inner = some r ∧
        rowCellStr row i ∈ r.departments) ∧
    (∃ r, alookup (normalizeKey (rowCellStr row cols.salesman))
        ((stepRowP4 cols dp st row).salesmanDepartments) = some r ∧
      rowCellStr row i ∈ r.departments) := by
  have hlabel : formatDepartmentCounterP4 (rowCellStr row cols.itemGroup)
      (rowCellStr row i) = rowCellStr row i := by
    rw [hdept]
    unfold formatDepartmentCounterP4
    rw [if_neg (by rintro ⟨h1, _⟩; exact h1 rfl),
      if_neg (by intro h1; exact h1 rfl), if_pos hcnt]
  have hne : ¬ ∀ c ∈ row, stringifyCell c = [] := not_all_empty_of_cell hcnt
  refine ⟨hlabel, ?_, ?_, ?_⟩
  · unfold stepRowP4
    rw [if_neg hne]
    simp only [hcol]
    rw [if_pos hck, if_pos ⟨hsk, hck⟩, if_pos hsk]
    rw [alookup_aupsert_self, hlabel, if_pos hcnt]
    exact ⟨_, rfl, insertUniq_self_mem _ _⟩
  · unfold stepRowP4
    rw [if_neg hne]
    simp only [hcol]
    rw [if_pos hck, if_pos ⟨hsk, hck⟩, if_pos hsk]
    rw [alookup_aupsert_self]
    refine ⟨_, rfl, ?_⟩
    rw [alookup_aupsert_self, hlabel, if_pos hcnt]
    exact ⟨_, rfl, insertUniq_self_mem _ _⟩
  · unfold stepRowP4
    rw [if_neg hne]
    simp only [hcol]
    rw [if_pos hck, if_pos ⟨hsk, hck⟩, if_pos hsk]
    rw [alookup_aupsert_self, hlabel, if_pos hcnt]
    exact ⟨_, rfl, insertUniq_self_mem _ _⟩
/-- Demo part_004 column layout: salesman 0, item group 1, customer id
2, counter 3. -/
def demoColsP4 : ColumnsP4 := ⟨0, 1, 2, none, none, some 3⟩

/-- Demo row with an empty department cell and counter C1. -/
def demoRowC10 : Row := [some litX, some [], some litNine, some litC1]

/-- Witness for C10: the counter-only row evaluated concretely — the
visit department set of the resulting state contains the bare counter
name. -/
theorem stepRowP4_counter_only_department_witness :
    ∃ vi, alookup (normalizeKey (rowCellStr demoRowC10 demoColsP4.mobile),
        (rowDateInfo demoColsP4.voucherDate dpUnknown demoRowC10).key)
        ((stepRowP4 demoColsP4 dpUnknown emptyParseStateP4 demoRowC10).customerVisits) =
        some vi ∧
      rowCellStr demoRowC10 3 ∈ vi.departments :=
  (stepRowP4_counter_only_department demoColsP4 dpUnknown emptyParseStateP4
    demoRowC10 3 rfl (by decide) (by decide) (by decide) (by decide)).2.1
